import Mathlib

/-!
Verification of the plant-identifier application (`MyPlant/app.py`).

The two pieces of program logic the claims concern are embedded here:

* `process_gemini_response` (app.py lines 186-216): the line-oriented parser
  turning the AI service's free text into a `PlantInfo` record.  Python
  strings are modelled as `List Char`; each Python string operation used by
  the source (`strip`, `lower`, `startswith`, `in`, `split(':', 1)`,
  `split(':')`, `split()`, `lstrip('• ')`) has a directly corresponding
  definition below.  Fallible operations (`[1]` indexing after a split,
  dict indexing) are modelled with `Option`, so that the totality of the
  parser is a theorem rather than an artefact of the embedding.
  `str.strip`/`str.lower` are modelled on the ASCII range, which covers
  every pattern the source compares against.

* `prepare_image` (app.py lines 122-147): the image normalizer.  Its size
  arithmetic (`ratio = max_size / max(image.size)`;
  `int(dim * ratio)`) is performed by Python in IEEE-754 binary64
  ("double") floating point.  That arithmetic is embedded exactly: a
  rational-valued function `roundDouble` performs correct rounding to 53
  significand bits with ties to even (the exponent is not clamped - no
  overflow or subnormals - which is faithful for every value arising from
  realistic image dimensions).  Division of two Python ints and the
  int-to-float conversion are correctly rounded in CPython, so the computed
  size is `int(roundDouble (roundDouble dim * roundDouble (300 / maxdim)))`.
-/

/-- Python strings, modelled as their character lists. -/
abbrev Chars := List Char

/-- The ASCII whitespace characters stripped by Python `str.strip()`. -/
def pyWs (c : Char) : Bool :=
  c = ' ' || c = '\t' || c = '\n' || c = '\r' || c = '\x0b' || c = '\x0c'

/-- Python `str.lstrip()` (ASCII whitespace). -/
def pyLstrip (s : Chars) : Chars := s.dropWhile pyWs

/-- Python `str.rstrip()` (ASCII whitespace). -/
def pyRstrip (s : Chars) : Chars := (s.reverse.dropWhile pyWs).reverse

/-- Python `str.strip()` (ASCII whitespace). -/
def pyStrip (s : Chars) : Chars := pyRstrip (pyLstrip s)

/-- Python `str.lower()` (ASCII range; characters outside `A`-`Z` are kept). -/
def pyLower (s : Chars) : Chars := s.map Char.toLower

/-- Python `needle in hay` substring test. -/
def hasSub : Chars → Chars → Bool
  | [], pat => pat.isEmpty
  | c :: t, pat => pat.isPrefixOf (c :: t) || hasSub t pat

/-- Python `s.split(':', 1)[1]`: the text after the first colon, `none` when
the string has no colon (where Python would raise `IndexError`). -/
def afterFirstColon : Chars → Option Chars
  | [] => none
  | c :: t => if c = ':' then some t else afterFirstColon t

/-- Python `s.split(':')[0]`: the text before the first colon (the whole
string when there is no colon; this indexing never fails in Python). -/
def beforeFirstColon : Chars → Chars
  | [] => []
  | c :: t => if c = ':' then [] else c :: beforeFirstColon t

/-- Python `s.split()[0]`: the first whitespace-delimited token, `none` when
there is none (where Python would raise `IndexError`). -/
def firstToken (s : Chars) : Option Chars :=
  match s.dropWhile pyWs with
  | [] => none
  | c :: t => some ((c :: t).takeWhile (fun d => !pyWs d))

/-- Python `s.lstrip('• ')`: drop every leading bullet or space character. -/
def lstripBulletSpace (s : Chars) : Chars :=
  s.dropWhile (fun c => c = '•' || c = ' ')

/-- Python `str.split('\n')`: split on every newline, keeping empty pieces
(`"".split('\n') == [""]`). -/
def splitNl : Chars → List Chars
  | [] => [[]]
  | c :: cs =>
    if c = '\n' then [] :: splitNl cs
    else
      match splitNl cs with
      | [] => [[c]]
      | l :: ls => (c :: l) :: ls

/-- The structured parse result built by `process_gemini_response`
(app.py lines 191-197).  `care_instructions` is an association list in the
insertion order of the Python dict, so that the presence and order of its
keys is a provable property rather than a typing artefact. -/
structure PlantInfo where
  common_name : Chars
  hindi_name : Chars
  care_instructions : List (Chars × List Chars)
deriving DecidableEq, Repr

/-- The initial `plant_info` dict (app.py lines 191-197). -/
def initPlantInfo : PlantInfo :=
  { common_name := "Unknown".data
    hindi_name := "Not available".data
    care_instructions :=
      [("Spring".data, []), ("Summer".data, []),
       ("Monsoon".data, []), ("Winter".data, [])] }

/-- The four season key strings, in dict insertion order. -/
def seasonNames : List Chars :=
  ["Spring".data, "Summer".data, "Monsoon".data, "Winter".data]

/-- Loop state of the parser: the record under construction plus the
`current_section` cursor (app.py line 199). -/
structure ParseState where
  info : PlantInfo
  current_section : Option Chars
deriving DecidableEq, Repr

/-- The state at loop entry: fresh record, `current_section = None`. -/
def initState : ParseState := { info := initPlantInfo, current_section := none }

/-- Python truthiness of `current_section` (`None` and `''` are falsy). -/
def sectionTruthy : Option Chars → Bool
  | none => false
  | some t => !t.isEmpty

/-- `any(line.startswith(f"{season} Care:") for season in ...)` over the
current keys of the care dict (app.py line 211). -/
def seasonHeaderAny (keys : List Chars) (line : Chars) : Bool :=
  keys.any (fun sn => (sn ++ " Care:".data).isPrefixOf line)

/-- `any(phrase in line.lower() for phrase in [...])` (app.py line 207). -/
def hindiPhraseAny (lowLine : Chars) : Bool :=
  ["hindi name:", "hindi:", "in hindi:"].any (fun p => hasSub lowLine p.data)

/-- `hindi_name.lower() in ['unknown', 'not available', 'n/a', '']`
(app.py line 209). -/
def hindiSentinel (v : Chars) : Bool :=
  ["unknown", "not available", "n/a", ""].any (fun s => pyLower v = s.data)

/-- Python `plant_info['care_instructions'][current_section].append(tip)`:
append to the list at the key, `none` when the key is absent (`KeyError`).
The dict's key set and order are untouched. -/
def appendAt (k : Chars) (tip : Chars) :
    List (Chars × List Chars) → Option (List (Chars × List Chars))
  | [] => none
  | p :: rest =>
    if p.1 = k then some ((p.1, p.2 ++ [tip]) :: rest)
    else (appendAt k tip rest).map (p :: ·)

/-- One iteration of the parser loop (app.py lines 200-214) on a raw line.
`none` marks the places where the Python code would raise
(`IndexError` from `[1]`/`[0]` indexing, `KeyError` from dict indexing). -/
def stepLine (st : ParseState) (rawLine : Chars) : Option ParseState :=
  let line := pyStrip rawLine
  if line.isEmpty then some st
  else if "common name:".data.isPrefixOf (pyLower line) then
    match afterFirstColon line with
    | none => none
    | some rest =>
      some { st with info := { st.info with common_name := pyStrip rest } }
  else if hindiPhraseAny (pyLower line) then
    match afterFirstColon line with
    | none => none
    | some rest =>
      let hn := pyStrip rest
      if hindiSentinel hn then some st
      else some { st with info := { st.info with hindi_name := hn } }
  else if seasonHeaderAny (st.info.care_instructions.map Prod.fst) line then
    match firstToken (pyStrip (beforeFirstColon line)) with
    | none => none
    | some tok => some { st with current_section := some tok }
  else if sectionTruthy st.current_section && "•".data.isPrefixOf line then
    match st.current_section with
    | none => none
    | some tok =>
      match appendAt tok (pyStrip (lstripBulletSpace line))
          st.info.care_instructions with
      | none => none
      | some care =>
        some { st with info := { st.info with care_instructions := care } }
  else some st

/-- The parser loop over a list of raw lines. -/
def runLines (st : ParseState) : List Chars → Option ParseState
  | [] => some st
  | l :: ls =>
    match stepLine st l with
    | none => none
    | some st2 => runLines st2 ls

/-- The parser applied to an already-split line list. -/
def parseLines (lines : List Chars) : Option PlantInfo :=
  (runLines initState lines).map (fun st => st.info)

/-- `process_gemini_response` (app.py lines 186-216): split the response on
newlines and run the parser loop.  `none` would mean an uncaught Python
exception; totality is proved below. -/
def process_gemini_response (response_text : String) : Option PlantInfo :=
  parseLines (splitNl response_text.data)

/-- A raw line none of the parser's four patterns recognizes (with the four
fixed season keys; blank lines qualify trivially). -/
def lineUnrecognized (l : Chars) : Bool :=
  let ln := pyStrip l
  !("common name:".data.isPrefixOf (pyLower ln)) &&
  !(hindiPhraseAny (pyLower ln)) &&
  !(seasonHeaderAny seasonNames ln) &&
  !("•".data.isPrefixOf ln)

/-- The text a bullet line contributes: `line.lstrip('• ').strip()` applied
to the stripped line (app.py line 214). -/
def bulletClean (l : Chars) : Chars := pyStrip (lstripBulletSpace (pyStrip l))

/-! ### Exact model of the binary64 arithmetic in `prepare_image`

`roundDouble q` is the IEEE-754 binary64 value nearest to the rational `q`
(ties to even), as a rational: correct rounding to a 53-bit significand.
The exponent is unbounded (no overflow or subnormal range), which agrees
with binary64 for every magnitude reachable from realistic image sizes. -/

/-- `⌊log2 q⌋` for a positive rational, computed from `Nat.log`. -/
def floorLog2 (q : ℚ) : ℤ :=
  if 1 ≤ q then (Nat.log 2 (Int.toNat ⌊q⌋) : ℤ)
  else if q * (2 : ℚ) ^ Nat.log 2 (Int.toNat ⌊q⁻¹⌋) = 1 then
    -(Nat.log 2 (Int.toNat ⌊q⁻¹⌋) : ℤ)
  else -(Nat.log 2 (Int.toNat ⌊q⁻¹⌋) : ℤ) - 1

/-- The exponent of the binary64 representation of a positive `q`: the
significand `q * 2 ^ (-sigE q)` lies in `[2^52, 2^53)`. -/
def sigE (q : ℚ) : ℤ := floorLog2 q - 52

/-- The unrounded significand of a positive `q`. -/
def sigM (q : ℚ) : ℚ := q * (2 : ℚ) ^ (-sigE q)

/-- Round a rational to the nearest integer, ties to even. -/
def rndInt (m : ℚ) : ℤ :=
  if m - ⌊m⌋ < 1/2 then ⌊m⌋
  else if 1/2 < m - ⌊m⌋ then ⌊m⌋ + 1
  else if 2 ∣ ⌊m⌋ then ⌊m⌋ else ⌊m⌋ + 1

/-- Correctly round a positive rational to 53 significand bits. -/
def rndPos (q : ℚ) : ℚ := (rndInt (sigM q) : ℚ) * (2 : ℚ) ^ sigE q

/-- The binary64 double nearest to a rational (ties to even). -/
def roundDouble (q : ℚ) : ℚ :=
  if 0 < q then rndPos q else if q < 0 then -rndPos (-q) else 0

/-! ### The image normalizer `prepare_image` (app.py lines 122-147) -/

/-- `max_size = 300` (app.py line 128). -/
def max_size : ℕ := 300

/-- `int(dim * ratio)` where `ratio = max_size / max(image.size)`
(app.py lines 130-131), in the binary64 arithmetic CPython performs:
`max_size / m` is the correctly rounded double quotient, `dim` is converted
to a double, the product is a correctly rounded double multiplication, and
`int` truncates (our values are nonnegative, so truncation is `⌊·⌋`). -/
def scaledDim (d m : ℕ) : ℕ :=
  (⌊roundDouble (roundDouble d * roundDouble ((max_size : ℚ) / m))⌋).toNat

/-- The pixel size of the image `prepare_image` goes on to encode
(app.py lines 128-132): scaled when the longer dimension exceeds
`max_size`, untouched otherwise. -/
def output_size (w h : ℕ) : ℕ × ℕ :=
  if max_size < max w h then (scaledDim w (max w h), scaledDim h (max w h))
  else (w, h)

/-- `base64.b64encode(...).decode('utf-8')` (app.py line 143): standard
base64 of a byte list, with `=` padding. -/
def b64Char (n : ℕ) : Char :=
  ("ABCDEFGHIJKLMNOPQRSTUVWXYZabcdefghijklmnopqrstuvwxyz0123456789+/".data).getD n 'A'

/-- Standard base64 encoding of a list of bytes. -/
def base64Encode : List ℕ → Chars
  | [] => []
  | [b1] => [b64Char (b1 / 4), b64Char (b1 % 4 * 16), '=', '=']
  | [b1, b2] =>
    [b64Char (b1 / 4), b64Char (b1 % 4 * 16 + b2 / 16), b64Char (b2 % 16 * 4), '=']
  | b1 :: b2 :: b3 :: rest =>
    b64Char (b1 / 4) :: b64Char (b1 % 4 * 16 + b2 / 16) ::
    b64Char (b2 % 16 * 4 + b3 / 64) :: b64Char (b3 % 64) :: base64Encode rest

/-- Abstract model of the PIL image handed to `prepare_image`, together
with the outcomes of the PIL calls the function makes.  PIL decodes lazily,
so a malformed upload raises from `resize`/`convert`/`save` inside the
`try` block; which call raises is external input, recorded as flags.
`jpegBytes` is the JPEG encoding produced when `save` succeeds. -/
structure PILImage where
  width : ℕ
  height : ℕ
  mode : Chars
  resizeRaises : Bool
  convertRaises : Bool
  saveRaises : Bool
  jpegBytes : List ℕ
deriving DecidableEq, Repr

/-- The dict `prepare_image` returns on success (app.py lines 141-144). -/
structure ImagePayload where
  mime_type : Chars
  data : Chars
deriving DecidableEq, Repr

/-- `prepare_image` (app.py lines 122-147).  The `try` body is an `Except`
computation whose `error` marks a raised exception carrying its message;
the surrounding handler (lines 145-147) shows a message and returns
`None` - modelled by discarding the cause and producing `none`. -/
def prepare_image (img : PILImage) : Option ImagePayload :=
  let step1 : Except Chars PILImage :=
    if max_size < max img.width img.height then
      if img.resizeRaises then Except.error "resize raised".data
      else Except.ok { img with
        width := (output_size img.width img.height).1,
        height := (output_size img.width img.height).2 }
    else Except.ok img
  let step2 : Except Chars PILImage :=
    match step1 with
    | Except.error e => Except.error e
    | Except.ok img1 =>
      if img1.mode ≠ "RGB".data then
        if img1.convertRaises then Except.error "convert raised".data
        else Except.ok { img1 with mode := "RGB".data }
      else Except.ok img1
  let step3 : Except Chars ImagePayload :=
    match step2 with
    | Except.error e => Except.error e
    | Except.ok img2 =>
      if img2.saveRaises then Except.error "save raised".data
      else Except.ok { mime_type := "image/jpeg".data,
                       data := base64Encode img2.jpegBytes }
  match step3 with
  | Except.ok payload => some payload
  | Except.error _ => none

/-! ## Properties of the binary64 rounding model -/

theorem two_zpow_floorLog2_le {q : ℚ} (hq : 0 < q) : (2:ℚ) ^ floorLog2 q ≤ q := by
  unfold floorLog2
  split_ifs with h1 htie
  · have hfl : (1:ℤ) ≤ ⌊q⌋ := by
      rw [Int.le_floor]; exact_mod_cast h1
    have hn0 : Int.toNat ⌊q⌋ ≠ 0 := by omega
    have hpow : ((2:ℕ) ^ Nat.log 2 (Int.toNat ⌊q⌋) : ℚ) ≤ ((Int.toNat ⌊q⌋ : ℕ) : ℚ) := by
      exact_mod_cast Nat.pow_log_le_self 2 hn0
    have hcast : ((Int.toNat ⌊q⌋ : ℕ) : ℚ) = ((⌊q⌋ : ℤ) : ℚ) := by
      exact_mod_cast Int.toNat_of_nonneg (by omega : (0:ℤ) ≤ ⌊q⌋)
    calc (2:ℚ) ^ ((Nat.log 2 (Int.toNat ⌊q⌋) : ℕ) : ℤ)
        = ((2:ℕ) ^ Nat.log 2 (Int.toNat ⌊q⌋) : ℚ) := by
          rw [zpow_natCast]; push_cast; ring
      _ ≤ ((⌊q⌋ : ℤ) : ℚ) := by rw [← hcast]; exact hpow
      _ ≤ q := Int.floor_le q
  · have hqe : q = ((2:ℚ) ^ Nat.log 2 (Int.toNat ⌊q⁻¹⌋))⁻¹ :=
      eq_inv_of_mul_eq_one_left htie
    rw [zpow_neg, zpow_natCast]
    exact le_of_eq hqe.symm
  · have hq1 : q < 1 := not_le.mp h1
    have hinv : 1 < q⁻¹ := by
      rw [lt_inv_comm₀ one_pos hq]; simpa using hq1
    have hfl : (1:ℤ) ≤ ⌊q⁻¹⌋ := Int.le_floor.mpr (by exact_mod_cast le_of_lt hinv)
    have hn_lt : Int.toNat ⌊q⁻¹⌋ < 2 ^ (Nat.log 2 (Int.toNat ⌊q⁻¹⌋) + 1) :=
      Nat.lt_pow_succ_log_self (by norm_num) _
    have hcast : ((Int.toNat ⌊q⁻¹⌋ : ℕ) : ℚ) = ((⌊q⁻¹⌋ : ℤ) : ℚ) := by
      exact_mod_cast Int.toNat_of_nonneg (by omega : (0:ℤ) ≤ ⌊q⁻¹⌋)
    have hql : q⁻¹ < ((2:ℚ) ^ (Nat.log 2 (Int.toNat ⌊q⁻¹⌋) + 1)) := by
      have h1' : q⁻¹ < ((⌊q⁻¹⌋ : ℤ) : ℚ) + 1 := Int.lt_floor_add_one _
      have h2' : ((Int.toNat ⌊q⁻¹⌋ : ℕ) : ℚ) + 1 ≤ ((2:ℕ) ^ (Nat.log 2 (Int.toNat ⌊q⁻¹⌋) + 1) : ℚ) := by
        exact_mod_cast Nat.succ_le_of_lt hn_lt
      push_cast at h2' ⊢
      rw [hcast] at h2'
      linarith
    have h2p : (0:ℚ) < 2 ^ (Nat.log 2 (Int.toNat ⌊q⁻¹⌋) + 1) := by positivity
    have hkey : 1 ≤ q * 2 ^ (Nat.log 2 (Int.toNat ⌊q⁻¹⌋) + 1) := by
      have := mul_lt_mul_of_pos_left hql hq
      rw [mul_inv_cancel₀ (ne_of_gt hq)] at this
      linarith
    have : (-(Nat.log 2 (Int.toNat ⌊q⁻¹⌋) : ℤ) - 1) = -((Nat.log 2 (Int.toNat ⌊q⁻¹⌋) + 1 : ℕ) : ℤ) := by
      push_cast; ring
    rw [this, zpow_neg, zpow_natCast, inv_eq_one_div, div_le_iff₀ h2p]
    linarith

theorem abs_rndInt_sub_le (m : ℚ) : |(rndInt m : ℚ) - m| ≤ 1/2 := by
  have h1 : ((⌊m⌋ : ℤ) : ℚ) ≤ m := Int.floor_le m
  have h2 : m < ((⌊m⌋ : ℤ) : ℚ) + 1 := Int.lt_floor_add_one m
  unfold rndInt
  split_ifs with ha hb hc
  · rw [abs_le]; constructor <;> linarith
  · push_cast at hb
    have hx : ((((⌊m⌋ : ℤ) + 1 : ℤ)) : ℚ) = ((⌊m⌋ : ℤ) : ℚ) + 1 := by
      push_cast
      ring
    rw [abs_le, hx]
    constructor <;> linarith
  · have heq : m - ((⌊m⌋ : ℤ) : ℚ) = 1/2 := by push_cast at ha hb; linarith
    rw [abs_le]
    constructor <;> linarith
  · have heq : m - ((⌊m⌋ : ℤ) : ℚ) = 1/2 := by push_cast at ha hb; linarith
    have hx : ((((⌊m⌋ : ℤ) + 1 : ℤ)) : ℚ) = ((⌊m⌋ : ℤ) : ℚ) + 1 := by
      push_cast
      ring
    rw [abs_le, hx]
    constructor <;> linarith

theorem abs_rndPos_sub_le {q : ℚ} (hq : 0 < q) :
    |rndPos q - q| ≤ q * (2:ℚ) ^ (-(53:ℤ)) := by
  have h2z : (2:ℚ) ≠ 0 := by norm_num
  have hE : (0:ℚ) < (2:ℚ) ^ sigE q := zpow_pos (by norm_num) _
  have hq' : sigM q * (2:ℚ) ^ sigE q = q := by
    rw [sigM, mul_assoc, ← zpow_add₀ h2z, neg_add_cancel, zpow_zero, mul_one]
  have hdiff : rndPos q - q = ((rndInt (sigM q) : ℚ) - sigM q) * (2:ℚ) ^ sigE q := by
    rw [rndPos, sub_mul, hq']
  have step1 : |rndPos q - q| = |(rndInt (sigM q) : ℚ) - sigM q| * (2:ℚ) ^ sigE q := by
    rw [hdiff, abs_mul, abs_of_pos hE]
  have step2 : |(rndInt (sigM q) : ℚ) - sigM q| * (2:ℚ) ^ sigE q
      ≤ (1/2) * (2:ℚ) ^ sigE q :=
    mul_le_mul_of_nonneg_right (abs_rndInt_sub_le _) (le_of_lt hE)
  have step3 : (1/2 : ℚ) * (2:ℚ) ^ sigE q
      = (2:ℚ) ^ floorLog2 q * (2:ℚ) ^ (-(53:ℤ)) := by
    rw [sigE, ← zpow_add₀ h2z]
    have hexp : floorLog2 q + -(53:ℤ) = -1 + (floorLog2 q - 52) := by ring
    rw [hexp, zpow_add₀ h2z]
    norm_num
  have step4 : (2:ℚ) ^ floorLog2 q * (2:ℚ) ^ (-(53:ℤ)) ≤ q * (2:ℚ) ^ (-(53:ℤ)) :=
    mul_le_mul_of_nonneg_right (two_zpow_floorLog2_le hq)
      (le_of_lt (zpow_pos (by norm_num) _))
  calc |rndPos q - q| = |(rndInt (sigM q) : ℚ) - sigM q| * (2:ℚ) ^ sigE q := step1
    _ ≤ (1/2) * (2:ℚ) ^ sigE q := step2
    _ = (2:ℚ) ^ floorLog2 q * (2:ℚ) ^ (-(53:ℤ)) := step3
    _ ≤ q * (2:ℚ) ^ (-(53:ℤ)) := step4

theorem roundDouble_of_pos {q : ℚ} (hq : 0 < q) : roundDouble q = rndPos q := by
  rw [roundDouble, if_pos hq]

theorem roundDouble_zero : roundDouble 0 = 0 := by norm_num [roundDouble]

theorem abs_roundDouble_sub_le {q : ℚ} (hq : 0 < q) :
    |roundDouble q - q| ≤ q * (2:ℚ) ^ (-(53:ℤ)) := by
  rw [roundDouble_of_pos hq]; exact abs_rndPos_sub_le hq

theorem roundDouble_le {q : ℚ} (hq : 0 < q) :
    roundDouble q ≤ q * (1 + (2:ℚ) ^ (-(53:ℤ))) := by
  have h := (abs_le.mp (abs_roundDouble_sub_le hq)).2
  nlinarith [h]

theorem le_roundDouble {q : ℚ} (hq : 0 < q) :
    q * (1 - (2:ℚ) ^ (-(53:ℤ))) ≤ roundDouble q := by
  have h := (abs_le.mp (abs_roundDouble_sub_le hq)).1
  nlinarith [h]

theorem roundDouble_pos {q : ℚ} (hq : 0 < q) : 0 < roundDouble q := by
  have h := le_roundDouble hq
  have hu : (2:ℚ) ^ (-(53:ℤ)) < 1 := by
    rw [zpow_neg]
    rw [inv_lt_one_iff₀]
    right
    have : (1:ℚ) < 2 ^ (53:ℕ) := by norm_num
    rw [show ((53:ℤ)) = ((53:ℕ) : ℤ) by norm_num, zpow_natCast]
    exact this
  nlinarith [h, hu]

theorem uVal : (2:ℚ) ^ (-(53:ℤ)) = 1/9007199254740992 := by
  rw [zpow_neg, show ((53:ℤ)) = ((53:ℕ) : ℤ) by norm_num, zpow_natCast]
  norm_num

theorem uSmall : (2:ℚ) ^ (-(53:ℤ)) ≤ 1/1000000 := by
  rw [zpow_neg, show ((53:ℤ)) = ((53:ℕ) : ℤ) by norm_num, zpow_natCast]
  rw [inv_le_comm₀ (by positivity) (by norm_num)]
  norm_num

theorem rdProd_upper (d m : ℕ) (hm : 300 < m) (hd : 0 < d) :
    roundDouble (roundDouble d * roundDouble ((max_size:ℚ) / m))
      ≤ (300 * d / m) * (1 + (2:ℚ) ^ (-(53:ℤ))) ^ 3 := by
  set u := (2:ℚ) ^ (-(53:ℤ)) with hu
  have hu0 : 0 < u := zpow_pos (by norm_num) _
  have hm0 : (0:ℚ) < (m:ℚ) := by exact_mod_cast Nat.cast_pos.mpr (by omega)
  have hd0 : (0:ℚ) < (d:ℚ) := Nat.cast_pos.mpr hd
  have hms : ((max_size : ℕ) : ℚ) = 300 := by norm_num [max_size]
  have hr0 : (0:ℚ) < (max_size:ℚ) / m := by rw [hms]; positivity
  have h1 := roundDouble_le hr0
  have h1p := roundDouble_pos hr0
  have h2 := roundDouble_le hd0
  have h2p := roundDouble_pos hd0
  have hprod_pos : 0 < roundDouble (d:ℚ) * roundDouble ((max_size:ℚ)/m) :=
    mul_pos h2p h1p
  have h3 := roundDouble_le hprod_pos
  have hmul : roundDouble (d:ℚ) * roundDouble ((max_size:ℚ)/m)
      ≤ ((d:ℚ)*(1+u)) * (((max_size:ℚ)/m)*(1+u)) :=
    mul_le_mul h2 h1 (le_of_lt h1p) (by positivity)
  calc roundDouble (roundDouble d * roundDouble ((max_size:ℚ)/m))
      ≤ (roundDouble (d:ℚ) * roundDouble ((max_size:ℚ)/m)) * (1+u) := h3
    _ ≤ (((d:ℚ)*(1+u)) * (((max_size:ℚ)/m)*(1+u))) * (1+u) :=
        mul_le_mul_of_nonneg_right hmul (by positivity)
    _ = (300 * d / m) * (1+u) ^ 3 := by rw [hms]; ring

theorem rdProd_lower (m : ℕ) (hm : 300 < m) :
    300 * (1 - (2:ℚ) ^ (-(53:ℤ))) ^ 3
      ≤ roundDouble (roundDouble m * roundDouble ((max_size:ℚ) / m)) := by
  have hu0 : (0:ℚ) < (2:ℚ) ^ (-(53:ℤ)) := zpow_pos (by norm_num) _
  have hu1 : (2:ℚ) ^ (-(53:ℤ)) ≤ 1/1000000 := uSmall
  have h1u : (0:ℚ) ≤ 1 - (2:ℚ) ^ (-(53:ℤ)) := by rw [uVal]; norm_num
  have hm0 : (0:ℚ) < (m:ℚ) := by exact_mod_cast Nat.cast_pos.mpr (by omega)
  have hms : ((max_size : ℕ) : ℚ) = 300 := by norm_num [max_size]
  have hr0 : (0:ℚ) < (max_size:ℚ) / m := by rw [hms]; positivity
  have h1 := le_roundDouble hr0
  have h1p := roundDouble_pos hr0
  have h2 := le_roundDouble hm0
  have h2p := roundDouble_pos hm0
  have hprod_pos : 0 < roundDouble (m:ℚ) * roundDouble ((max_size:ℚ)/m) :=
    mul_pos h2p h1p
  have h3 := le_roundDouble hprod_pos
  have hmul : ((m:ℚ) * (1 - (2:ℚ) ^ (-(53:ℤ)))) *
        (((max_size:ℚ)/m) * (1 - (2:ℚ) ^ (-(53:ℤ))))
      ≤ roundDouble (m:ℚ) * roundDouble ((max_size:ℚ)/m) :=
    mul_le_mul h2 h1 (mul_nonneg (le_of_lt hr0) h1u) (le_of_lt h2p)
  calc 300 * (1 - (2:ℚ) ^ (-(53:ℤ))) ^ 3
      = (((m:ℚ) * (1 - (2:ℚ) ^ (-(53:ℤ)))) *
          (((max_size:ℚ)/m) * (1 - (2:ℚ) ^ (-(53:ℤ))))) *
          (1 - (2:ℚ) ^ (-(53:ℤ))) := by
        rw [hms]; field_simp; ring
    _ ≤ (roundDouble (m:ℚ) * roundDouble ((max_size:ℚ)/m)) *
          (1 - (2:ℚ) ^ (-(53:ℤ))) :=
        mul_le_mul_of_nonneg_right hmul h1u
    _ ≤ roundDouble (roundDouble m * roundDouble ((max_size:ℚ)/m)) := by
        nlinarith [h3, hprod_pos]

theorem scaledDim_zero (m : ℕ) : scaledDim 0 m = 0 := by
  simp [scaledDim, roundDouble_zero]

theorem scaledDim_le_300 {d m : ℕ} (hm : 300 < m) (hdm : d ≤ m) :
    scaledDim d m ≤ 300 := by
  rcases Nat.eq_zero_or_pos d with rfl | hd
  · rw [scaledDim_zero]; omega
  · have hu0 : (0:ℚ) < (2:ℚ) ^ (-(53:ℤ)) := zpow_pos (by norm_num) _
    have hu1 : (2:ℚ) ^ (-(53:ℤ)) ≤ 1/1000000 := uSmall
    have hm0 : (0:ℚ) < (m:ℚ) := by exact_mod_cast Nat.cast_pos.mpr (by omega)
    have hdm' : (d:ℚ) ≤ (m:ℚ) := Nat.cast_le.mpr hdm
    have hup := rdProd_upper d m hm hd
    have hfrac : (300 * (d:ℚ) / m) ≤ 300 := by
      rw [div_le_iff₀ hm0]; nlinarith
    have hcube : (1 + (2:ℚ) ^ (-(53:ℤ))) ^ 3 ≤ (1 + 1/1000000 : ℚ) ^ 3 := by
      gcongr
    have hfrac0 : (0:ℚ) ≤ 300 * (d:ℚ) / m := by positivity
    have hcube0 : (0:ℚ) ≤ (1 + (2:ℚ) ^ (-(53:ℤ))) ^ 3 := by positivity
    have hstep : (300 * (d:ℚ) / m) * (1 + (2:ℚ) ^ (-(53:ℤ))) ^ 3
        ≤ 300 * (1 + 1/1000000 : ℚ) ^ 3 := by nlinarith
    have h301 : (300:ℚ) * (1 + 1/1000000) ^ 3 < 301 := by norm_num
    have hfl : ⌊roundDouble (roundDouble d * roundDouble ((max_size:ℚ) / m))⌋ < (301:ℤ) :=
      Int.floor_lt.mpr (by push_cast; linarith)
    rw [scaledDim]
    omega

theorem scaledDim_le_dim {d m : ℕ} (hm : 300 < m) (hdm : d ≤ m) :
    scaledDim d m ≤ d := by
  rcases Nat.eq_zero_or_pos d with rfl | hd
  · rw [scaledDim_zero]
  · have hu0 : (0:ℚ) < (2:ℚ) ^ (-(53:ℤ)) := zpow_pos (by norm_num) _
    have hu1 : (2:ℚ) ^ (-(53:ℤ)) ≤ 1/1000000 := uSmall
    have hm0 : (0:ℚ) < (m:ℚ) := by exact_mod_cast Nat.cast_pos.mpr (by omega)
    have hm301 : (301:ℚ) ≤ (m:ℚ) := by exact_mod_cast (by omega : (301:ℕ) ≤ m)
    have hd0 : (0:ℚ) < (d:ℚ) := Nat.cast_pos.mpr hd
    have hup := rdProd_upper d m hm hd
    have hfrac : (300 * (d:ℚ) / m) ≤ (d:ℚ) * (300/301) := by
      rw [div_le_iff₀ hm0]; nlinarith
    have hcube : (1 + (2:ℚ) ^ (-(53:ℤ))) ^ 3 ≤ (1 + 1/1000000 : ℚ) ^ 3 := by
      gcongr
    have hfrac0 : (0:ℚ) ≤ 300 * (d:ℚ) / m := by positivity
    have hstep : (300 * (d:ℚ) / m) * (1 + (2:ℚ) ^ (-(53:ℤ))) ^ 3
        ≤ ((d:ℚ) * (300/301)) * (1 + 1/1000000 : ℚ) ^ 3 := by nlinarith
    have hfinal : ((d:ℚ) * (300/301)) * (1 + 1/1000000 : ℚ) ^ 3 < d := by
      nlinarith
    have hfl : ⌊roundDouble (roundDouble d * roundDouble ((max_size:ℚ) / m))⌋ < ((d:ℕ) : ℤ) :=
      Int.floor_lt.mpr (by push_cast; linarith)
    rw [scaledDim]
    omega

theorem le_scaledDim_max {m : ℕ} (hm : 300 < m) : 299 ≤ scaledDim m m := by
  have hu0 : (0:ℚ) < (2:ℚ) ^ (-(53:ℤ)) := zpow_pos (by norm_num) _
  have hu1 : (2:ℚ) ^ (-(53:ℤ)) ≤ 1/1000000 := uSmall
  have hlow := rdProd_lower m hm
  have hcube : (1 - 1/1000000 : ℚ) ^ 3 ≤ (1 - (2:ℚ) ^ (-(53:ℤ))) ^ 3 := by
    have hb : (1 - 1/1000000 : ℚ) ≤ 1 - (2:ℚ) ^ (-(53:ℤ)) := by rw [uVal]; norm_num
    exact pow_le_pow_left₀ (by norm_num) hb 3
  have h299 : (299:ℚ) < 300 * (1 - 1/1000000 : ℚ) ^ 3 := by norm_num
  have hfl : (299:ℤ) ≤ ⌊roundDouble (roundDouble m * roundDouble ((max_size:ℚ) / m))⌋ :=
    Int.le_floor.mpr (by push_cast; nlinarith)
  rw [scaledDim]
  omega

theorem rndPos_eval {q : ℚ} {e f : ℤ} (hE : sigE q = e)
    (hf : ⌊q * (2:ℚ) ^ (-e)⌋ = f) (hr : q * (2:ℚ) ^ (-e) - f < 1/2) :
    rndPos q = (f:ℚ) * (2:ℚ) ^ e := by
  have hm : sigM q = q * (2:ℚ) ^ (-e) := by rw [sigM, hE]
  have hn : rndInt (sigM q) = f := by
    rw [rndInt, hm, hf, if_pos hr]
  rw [rndPos, hn, hE]

theorem roundDouble_eval {q : ℚ} (hq : 0 < q) {e f : ℤ} (hE : sigE q = e)
    (hf : ⌊q * (2:ℚ) ^ (-e)⌋ = f) (hr : q * (2:ℚ) ^ (-e) - f < 1/2) :
    roundDouble q = (f:ℚ) * (2:ℚ) ^ e := by
  rw [roundDouble_of_pos hq]; exact rndPos_eval hE hf hr

theorem zpow_eval_43 : (2:ℚ) ^ (-(-43:ℤ)) = 8796093022208 := by
  rw [show (-(-43:ℤ)) = ((43:ℕ) : ℤ) by norm_num, zpow_natCast]; norm_num

theorem zpow_eval_m43 : (2:ℚ) ^ (-43:ℤ) = 1/8796093022208 := by
  rw [show (-43:ℤ) = -((43:ℕ) : ℤ) by norm_num, zpow_neg, zpow_natCast]; norm_num

theorem zpow_eval_53 : (2:ℚ) ^ (-(-53:ℤ)) = 9007199254740992 := by
  rw [show (-(-53:ℤ)) = ((53:ℕ) : ℤ) by norm_num, zpow_natCast]; norm_num

theorem zpow_eval_m53 : (2:ℚ) ^ (-53:ℤ) = 1/9007199254740992 := by
  rw [show (-53:ℤ) = -((53:ℕ) : ℤ) by norm_num, zpow_neg, zpow_natCast]; norm_num

theorem zpow_eval_44 : (2:ℚ) ^ (-(-44:ℤ)) = 17592186044416 := by
  rw [show (-(-44:ℤ)) = ((44:ℕ) : ℤ) by norm_num, zpow_natCast]; norm_num

theorem zpow_eval_m44 : (2:ℚ) ^ (-44:ℤ) = 1/17592186044416 := by
  rw [show (-44:ℤ) = -((44:ℕ) : ℤ) by norm_num, zpow_neg, zpow_natCast]; norm_num

theorem roundDouble_562 : roundDouble (562:ℚ) = 562 := by
  have hL : floorLog2 (562:ℚ) = 9 := by
    rw [floorLog2, if_pos (by norm_num : (1:ℚ) ≤ 562)]
    have h1 : ⌊(562:ℚ)⌋ = 562 := by norm_num
    rw [h1]
    have h2 : Nat.log 2 (Int.toNat 562) = 9 :=
      Nat.log_eq_of_pow_le_of_lt_pow (by norm_num) (by norm_num)
    rw [h2]
    norm_num
  have hE : sigE (562:ℚ) = -43 := by rw [sigE, hL]; norm_num
  have hf : ⌊(562:ℚ) * (2:ℚ) ^ (-(-43:ℤ))⌋ = 4943404278480896 := by
    rw [zpow_eval_43]
    exact Int.floor_eq_iff.mpr (by norm_num)
  have hr : (562:ℚ) * (2:ℚ) ^ (-(-43:ℤ)) - (4943404278480896:ℤ) < 1/2 := by
    rw [zpow_eval_43]; norm_num
  rw [roundDouble_eval (by norm_num) hE hf hr, zpow_eval_m43]
  norm_num

theorem roundDouble_ratio_562 :
    roundDouble ((300:ℚ)/562) = 4808113481178465 * (2:ℚ) ^ (-53:ℤ) := by
  have hL : floorLog2 ((300:ℚ)/562) = -1 := by
    rw [floorLog2, if_neg (by norm_num : ¬ (1:ℚ) ≤ 300/562)]
    have h1 : ⌊((300:ℚ)/562)⁻¹⌋ = 1 := by
      rw [show ((300:ℚ)/562)⁻¹ = 562/300 by norm_num]
      exact Int.floor_eq_iff.mpr (by norm_num)
    rw [h1]
    have h2 : Nat.log 2 (Int.toNat 1) = 0 := by
      simp [Nat.log_one_right]
    rw [h2]
    rw [if_neg (by norm_num : ¬ (300:ℚ)/562 * (2:ℚ) ^ (0:ℕ) = 1)]
    norm_num
  have hE : sigE ((300:ℚ)/562) = -53 := by rw [sigE, hL]; norm_num
  have hf : ⌊(300:ℚ)/562 * (2:ℚ) ^ (-(-53:ℤ))⌋ = 4808113481178465 := by
    rw [zpow_eval_53]
    exact Int.floor_eq_iff.mpr (by norm_num)
  have hr : (300:ℚ)/562 * (2:ℚ) ^ (-(-53:ℤ)) - (4808113481178465:ℤ) < 1/2 := by
    rw [zpow_eval_53]; norm_num
  rw [roundDouble_eval (by norm_num) hE hf hr]
  norm_num

theorem scaledDim_562 : scaledDim 562 562 = 299 := by
  have hpv : (562:ℚ) * (4808113481178465 * (2:ℚ) ^ (-53:ℤ))
      = 2702159776422297330/9007199254740992 := by
    rw [zpow_eval_m53]; norm_num
  have hppos : (0:ℚ) < 2702159776422297330/9007199254740992 := by norm_num
  have hL : floorLog2 ((2702159776422297330:ℚ)/9007199254740992) = 8 := by
    rw [floorLog2, if_pos (by norm_num : (1:ℚ) ≤ 2702159776422297330/9007199254740992)]
    have h1 : ⌊(2702159776422297330:ℚ)/9007199254740992⌋ = 299 :=
      Int.floor_eq_iff.mpr (by norm_num)
    rw [h1]
    have h2 : Nat.log 2 (Int.toNat 299) = 8 :=
      Nat.log_eq_of_pow_le_of_lt_pow (by norm_num) (by norm_num)
    rw [h2]
    norm_num
  have hE : sigE ((2702159776422297330:ℚ)/9007199254740992) = -44 := by
    rw [sigE, hL]; norm_num
  have hf : ⌊(2702159776422297330:ℚ)/9007199254740992 * (2:ℚ) ^ (-(-44:ℤ))⌋
      = 5277655813324799 := by
    rw [zpow_eval_44]
    exact Int.floor_eq_iff.mpr (by norm_num)
  have hr : (2702159776422297330:ℚ)/9007199254740992 * (2:ℚ) ^ (-(-44:ℤ))
      - (5277655813324799:ℤ) < 1/2 := by
    rw [zpow_eval_44]; norm_num
  have hrd3 : roundDouble ((2702159776422297330:ℚ)/9007199254740992)
      = 5277655813324799 * (2:ℚ) ^ (-44:ℤ) := by
    rw [roundDouble_eval hppos hE hf hr]; norm_num
  have hfin : ⌊(5277655813324799:ℚ) * (2:ℚ) ^ (-44:ℤ)⌋ = 299 := by
    rw [zpow_eval_m44]
    exact Int.floor_eq_iff.mpr (by norm_num)
  have hms : ((max_size:ℕ):ℚ) = 300 := by norm_num [max_size]
  rw [scaledDim]
  have hc : ((562:ℕ):ℚ) = (562:ℚ) := by norm_num
  rw [hms, hc, roundDouble_562, roundDouble_ratio_562, hpv, hrd3, hfin]
  rfl

/-- C3: for every input image, the normalizer's output never has its longer
dimension exceed 300, each output dimension is at most the corresponding
input dimension, and an image whose longer dimension is at most 300 keeps
its exact width and height (no upscaling). -/
theorem normalizer_never_upscales (w h : ℕ) :
    max (output_size w h).1 (output_size w h).2 ≤ 300 ∧
    (output_size w h).1 ≤ w ∧ (output_size w h).2 ≤ h ∧
    (max w h ≤ 300 → output_size w h = (w, h)) := by
  by_cases hc : max_size < max w h
  · have hc' : 300 < max w h := by simpa [max_size] using hc
    rw [output_size, if_pos hc]
    refine ⟨?_, scaledDim_le_dim hc' (le_max_left w h),
      scaledDim_le_dim hc' (le_max_right w h), ?_⟩
    · exact max_le (scaledDim_le_300 hc' (le_max_left w h))
        (scaledDim_le_300 hc' (le_max_right w h))
    · intro hle; omega
  · have hc' : max w h ≤ 300 := by simp [max_size] at hc; omega
    rw [output_size, if_neg hc]
    exact ⟨hc', le_refl w, le_refl h, fun _ => rfl⟩

theorem normalizer_never_upscales_witness :
    max (output_size 200 100).1 (output_size 200 100).2 ≤ 300 ∧
    output_size 200 100 = (200, 100) :=
  ⟨(normalizer_never_upscales 200 100).1,
   (normalizer_never_upscales 200 100).2.2.2 (by decide)⟩

/-- C4 counterexample: a 562 by 562 input exceeds the threshold, yet the
resized longer dimension is 299, not exactly 300: the code computes
`int(562 * (300/562))` in binary64 arithmetic, and the product rounds to
just below 300. -/
theorem resize_562_not_exactly_300 :
    max (output_size 562 562).1 (output_size 562 562).2 = 299 ∧ (299:ℕ) ≠ 300 := by
  have hmax : max (562:ℕ) 562 = 562 := Nat.max_self 562
  have h1 : output_size 562 562 = (scaledDim 562 562, scaledDim 562 562) := by
    rw [output_size, if_pos (by simp [max_size])]
    rw [hmax]
  rw [h1, scaledDim_562]
  exact ⟨Nat.max_self 299, by omega⟩

/-- C4 amended: for an input whose longer dimension exceeds 300, scaling
brings the longer output dimension to 300 up to one unit of binary64
truncation error: it is 299 or 300 (exactly 300 in exact arithmetic, but
`int(dim * ratio)` can land one below, as at 562 by 562). -/
theorem resize_longer_dim_299_or_300 (w h : ℕ) (hm : 300 < max w h) :
    299 ≤ max (output_size w h).1 (output_size w h).2 ∧
    max (output_size w h).1 (output_size w h).2 ≤ 300 := by
  have hc : max_size < max w h := by simpa [max_size] using hm
  rw [output_size, if_pos hc]
  constructor
  · rcases Nat.le_total w h with hwh | hwh
    · have hmax : max w h = h := Nat.max_eq_right hwh
      have hm2 : 300 < h := by rw [hmax] at hm; exact hm
      have h299 : 299 ≤ scaledDim h (max w h) := by rw [hmax]; exact le_scaledDim_max hm2
      exact le_trans h299 (le_max_right _ _)
    · have hmax : max w h = w := Nat.max_eq_left hwh
      have hm2 : 300 < w := by rw [hmax] at hm; exact hm
      have h299 : 299 ≤ scaledDim w (max w h) := by rw [hmax]; exact le_scaledDim_max hm2
      exact le_trans h299 (le_max_left _ _)
  · exact max_le (scaledDim_le_300 hm (le_max_left w h))
      (scaledDim_le_300 hm (le_max_right w h))

theorem resize_longer_dim_299_or_300_witness :
    299 ≤ max (output_size 562 562).1 (output_size 562 562).2 ∧
    max (output_size 562 562).1 (output_size 562 562).2 ≤ 300 :=
  resize_longer_dim_299_or_300 562 562 (by decide)

/-- C5 counterexample: a failing JPEG encode makes `prepare_image` return
`None` - a bare null result with no `ImagePreparationError` (no such typed
error exists anywhere in the program; the handler shows a message and
returns `None`). -/
theorem prepare_image_failure_none_concrete :
    prepare_image ⟨200, 100, "RGB".data, false, false, true, []⟩ = none := by rfl

/-- C5 amended: whenever resizing, converting or encoding raises,
`prepare_image` reports the failure by displaying a message and returning
`None`; no typed `ImagePreparationError` is produced - the caller detects
failure by the null result. -/
theorem prepare_image_failure_none (img : PILImage)
    (hfail : (300 < max img.width img.height ∧ img.resizeRaises = true) ∨
             (img.mode ≠ "RGB".data ∧ img.convertRaises = true) ∨
             img.saveRaises = true) :
    prepare_image img = none := by
  have hms : max_size = 300 := rfl
  by_cases h1 : 300 < max img.width img.height <;>
  by_cases h2 : img.resizeRaises <;>
  by_cases h3 : img.mode = "RGB".data <;>
  by_cases h4 : img.convertRaises <;>
  by_cases h5 : img.saveRaises <;>
    simp only [prepare_image, hms] <;>
    rcases hfail with ⟨hsz, hrr⟩ | ⟨hmode, hcr⟩ | hsr <;>
    (try simp_all) <;>
    (try rw [if_neg (by omega : ¬ (300 < img.width ∨ 300 < img.height))]) <;>
    simp_all

theorem prepare_image_failure_none_witness :
    prepare_image ⟨200, 100, "P".data, false, true, false, []⟩ = none :=
  prepare_image_failure_none _ (Or.inr (Or.inl ⟨by decide, rfl⟩))

/-! ## Parser infrastructure lemmas -/

theorem toLower_ne_colon {c : Char} (h : c ≠ ':') : c.toLower ≠ ':' := by
  intro hlow
  rw [Char.toLower] at hlow
  split at hlow
  · rename_i hrange
    have hvalid : (c.toNat + 32).isValidChar := Or.inl (by omega)
    have hval : (Char.ofNat (c.toNat + 32)).toNat = c.toNat + 32 := by
      rw [Char.ofNat, dif_pos hvalid]
      rfl
    rw [hlow] at hval
    have h58 : Char.toNat ':' = 58 := rfl
    omega
  · exact h hlow

theorem mem_of_mem_pyLower_colon {s : Chars} (h : ':' ∈ pyLower s) : ':' ∈ s := by
  rw [pyLower, List.mem_map] at h
  rcases h with ⟨c, hc, hlow⟩
  by_cases hcc : c = ':'
  · rw [hcc] at hc; exact hc
  · exact absurd hlow (toLower_ne_colon hcc)

theorem afterFirstColon_isSome {s : Chars} (h : ':' ∈ s) :
    ∃ r, afterFirstColon s = some r := by
  induction s with
  | nil => cases h
  | cons c t ih =>
    rw [afterFirstColon]
    by_cases hc : c = ':'
    · rw [if_pos hc]; exact ⟨t, rfl⟩
    · rw [if_neg hc]
      rcases List.mem_cons.mp h with hch | hct
      · exact absurd hch.symm hc
      · exact ih hct

theorem hasSub_subset {hay p : Chars} (hs : hasSub hay p = true) :
    ∀ c ∈ p, c ∈ hay := by
  induction hay with
  | nil =>
    rw [hasSub] at hs
    intro c hc
    rw [List.isEmpty_iff.mp hs] at hc
    cases hc
  | cons d t ih =>
    rw [hasSub, Bool.or_eq_true] at hs
    intro c hc
    rcases hs with hp | hrec
    · exact (List.isPrefixOf_iff_prefix.mp hp).sublist.subset hc
    · exact List.mem_cons_of_mem d (ih hrec c hc)

theorem colon_mem_of_commonPrefix {ln : Chars}
    (h : "common name:".data.isPrefixOf (pyLower ln) = true) : ':' ∈ ln := by
  have hp : "common name:".data <+: pyLower ln := List.isPrefixOf_iff_prefix.mp h
  have hmem : ':' ∈ pyLower ln := hp.sublist.subset (by decide)
  exact mem_of_mem_pyLower_colon hmem

theorem colon_mem_of_hindi {ln : Chars}
    (h : hindiPhraseAny (pyLower ln) = true) : ':' ∈ ln := by
  rw [hindiPhraseAny, List.any_eq_true] at h
  rcases h with ⟨p, hp, hsub⟩
  apply mem_of_mem_pyLower_colon
  apply hasSub_subset hsub
  fin_cases hp <;> decide

theorem appendAt_some {k : Chars} (tip : Chars) {care : List (Chars × List Chars)}
    (hk : k ∈ care.map Prod.fst) :
    ∃ care2, appendAt k tip care = some care2 ∧
      care2.map Prod.fst = care.map Prod.fst := by
  induction care with
  | nil => cases hk
  | cons p rest ih =>
    rw [appendAt]
    by_cases hpk : p.1 = k
    · rw [if_pos hpk]
      exact ⟨_, rfl, by simp⟩
    · rw [if_neg hpk]
      rw [List.map_cons] at hk
      rcases List.mem_cons.mp hk with hh | ht
      · exact absurd hh.symm hpk
      · rcases ih ht with ⟨c2, hc2, hkeys⟩
        rw [hc2]
        exact ⟨_, rfl, by simp [hkeys]⟩

theorem beforeFirstColon_append {a b : Chars} (ha : ':' ∉ a) :
    beforeFirstColon (a ++ ':' :: b) = a := by
  induction a with
  | nil => rw [List.nil_append, beforeFirstColon, if_pos rfl]
  | cons c t ih =>
    have hcne : ¬ c = ':' := fun hc => ha (by rw [hc]; exact List.mem_cons_self ':' t)
    rw [List.cons_append, beforeFirstColon, if_neg hcne]
    rw [ih (fun hm => ha (List.mem_cons_of_mem c hm))]

theorem seasonHeader_elim {keys : List Chars} {line : Chars}
    (h : seasonHeaderAny keys line = true) :
    ∃ sn ∈ keys, ∃ rest, line = sn ++ " Care:".data ++ rest := by
  rw [seasonHeaderAny, List.any_eq_true] at h
  rcases h with ⟨sn, hsn, hpre⟩
  rcases List.isPrefixOf_iff_prefix.mp hpre with ⟨rest, hrest⟩
  exact ⟨sn, hsn, rest, hrest.symm⟩

theorem seasonToken {sn : Chars} (hsn : sn ∈ seasonNames) (rest : Chars) :
    firstToken (pyStrip (beforeFirstColon (sn ++ " Care:".data ++ rest))) = some sn := by
  have hs : seasonNames =
      ["Spring".data, "Summer".data, "Monsoon".data, "Winter".data] := rfl
  rw [hs] at hsn
  fin_cases hsn
  · have he : "Spring".data ++ " Care:".data ++ rest
        = "Spring Care".data ++ ':' :: rest := rfl
    rw [he, beforeFirstColon_append (by decide)]
    decide
  · have he : "Summer".data ++ " Care:".data ++ rest
        = "Summer Care".data ++ ':' :: rest := rfl
    rw [he, beforeFirstColon_append (by decide)]
    decide
  · have he : "Monsoon".data ++ " Care:".data ++ rest
        = "Monsoon Care".data ++ ':' :: rest := rfl
    rw [he, beforeFirstColon_append (by decide)]
    decide
  · have he : "Winter".data ++ " Care:".data ++ rest
        = "Winter Care".data ++ ':' :: rest := rfl
    rw [he, beforeFirstColon_append (by decide)]
    decide

theorem stepLine_ok (st : ParseState) (l : Chars)
    (hkeys : st.info.care_instructions.map Prod.fst = seasonNames)
    (hsec : ∀ t, st.current_section = some t → t ∈ seasonNames) :
    ∃ st2, stepLine st l = some st2 ∧
      st2.info.care_instructions.map Prod.fst = seasonNames ∧
      (∀ t, st2.current_section = some t → t ∈ seasonNames) := by
  simp only [stepLine]
  by_cases h0 : (pyStrip l).isEmpty
  · rw [if_pos h0]; exact ⟨st, rfl, hkeys, hsec⟩
  · rw [if_neg h0]
    by_cases h1 : "common name:".data.isPrefixOf (pyLower (pyStrip l)) = true
    · rcases afterFirstColon_isSome (colon_mem_of_commonPrefix h1) with ⟨r, hr⟩
      rw [if_pos h1, hr]
      exact ⟨_, rfl, hkeys, hsec⟩
    · rw [if_neg h1]
      by_cases h2 : hindiPhraseAny (pyLower (pyStrip l)) = true
      · rcases afterFirstColon_isSome (colon_mem_of_hindi h2) with ⟨r, hr⟩
        rw [if_pos h2, hr]
        dsimp only
        by_cases h2s : hindiSentinel (pyStrip r) = true
        · rw [if_pos h2s]; exact ⟨st, rfl, hkeys, hsec⟩
        · rw [if_neg h2s]; exact ⟨_, rfl, hkeys, hsec⟩
      · rw [if_neg h2]
        by_cases h3 : seasonHeaderAny (st.info.care_instructions.map Prod.fst)
            (pyStrip l) = true
        · rw [if_pos h3]
          rw [hkeys] at h3
          rcases seasonHeader_elim h3 with ⟨sn, hsn, rest, hline⟩
          rw [hline, seasonToken hsn rest]
          refine ⟨_, rfl, hkeys, ?_⟩
          intro t ht
          have : sn = t := by injection ht
          rw [← this]
          exact hsn
        · rw [if_neg h3]
          by_cases h4 : (sectionTruthy st.current_section &&
              "•".data.isPrefixOf (pyStrip l)) = true
          · rw [if_pos h4]
            rw [Bool.and_eq_true] at h4
            obtain ⟨h4a, h4b⟩ := h4
            cases hcs : st.current_section with
            | none => rw [hcs] at h4a; cases h4a
            | some tok =>
              have htok : tok ∈ seasonNames := hsec tok hcs
              have htok2 := htok
              rw [← hkeys] at htok2
              rcases appendAt_some (pyStrip (lstripBulletSpace (pyStrip l))) htok2
                with ⟨care2, hc2, hkeys2⟩
              dsimp only
              rw [hc2]
              refine ⟨_, rfl, ?_, ?_⟩
              · rw [hkeys2]; exact hkeys
              · intro t ht
                have htt : tok = t := by injection ht
                rw [← htt]
                exact htok
          · rw [if_neg h4]; exact ⟨st, rfl, hkeys, hsec⟩

theorem runLines_ok (lines : List Chars) (st : ParseState)
    (hkeys : st.info.care_instructions.map Prod.fst = seasonNames)
    (hsec : ∀ t, st.current_section = some t → t ∈ seasonNames) :
    ∃ st2, runLines st lines = some st2 ∧
      st2.info.care_instructions.map Prod.fst = seasonNames ∧
      (∀ t, st2.current_section = some t → t ∈ seasonNames) := by
  induction lines generalizing st with
  | nil => exact ⟨st, rfl, hkeys, hsec⟩
  | cons l ls ih =>
    rcases stepLine_ok st l hkeys hsec with ⟨st1, hst1, hk1, hs1⟩
    rcases ih st1 hk1 hs1 with ⟨st2, hst2, hk2, hs2⟩
    rw [runLines, hst1]
    dsimp only
    rw [hst2]
    exact ⟨st2, rfl, hk2, hs2⟩

theorem stepLine_id (st : ParseState) (l : Chars)
    (hkeys : st.info.care_instructions.map Prod.fst = seasonNames)
    (hun : lineUnrecognized l = true) : stepLine st l = some st := by
  rw [lineUnrecognized] at hun
  simp only [Bool.and_eq_true, Bool.not_eq_true'] at hun
  obtain ⟨⟨⟨hc, hh⟩, hs⟩, hb⟩ := hun
  simp only [stepLine]
  by_cases h0 : (pyStrip l).isEmpty
  · rw [if_pos h0]
  · rw [if_neg h0, if_neg (by rw [hc]; exact Bool.false_ne_true),
      if_neg (by rw [hh]; exact Bool.false_ne_true),
      if_neg (by rw [hkeys, hs]; exact Bool.false_ne_true),
      if_neg (by rw [hb, Bool.and_false]; exact Bool.false_ne_true)]

theorem runLines_id (lines : List Chars) (st : ParseState)
    (hkeys : st.info.care_instructions.map Prod.fst = seasonNames)
    (hun : ∀ l ∈ lines, lineUnrecognized l = true) : runLines st lines = some st := by
  induction lines with
  | nil => rfl
  | cons l ls ih =>
    rw [runLines, stepLine_id st l hkeys (hun l (List.mem_cons_self l ls))]
    exact ih (fun x hx => hun x (List.mem_cons_of_mem l hx))

/-- C1: the parser is total - every input string, however malformed,
produces a `PlantInfo` with no error raised - and an input none of whose
lines matches any recognized pattern produces the fully defaulted record
(commonName `Unknown`, localName `Not available`, four empty tip lists). -/
theorem parser_total_and_defaulted (s : String) :
    (∃ pi, process_gemini_response s = some pi) ∧
    ((∀ l ∈ splitNl s.data, lineUnrecognized l = true) →
      process_gemini_response s = some initPlantInfo) := by
  constructor
  · rcases runLines_ok (splitNl s.data) initState rfl
      (fun t ht => Option.noConfusion ht) with ⟨st2, hrun, _, _⟩
    exact ⟨st2.info, by rw [process_gemini_response, parseLines, hrun]; rfl⟩
  · intro hun
    rw [process_gemini_response, parseLines, runLines_id _ initState rfl hun]
    rfl

theorem parser_total_and_defaulted_witness :
    (∃ pi, process_gemini_response "no recognizable patterns\nat all here" = some pi) ∧
    process_gemini_response "no recognizable patterns\nat all here" = some initPlantInfo :=
  ⟨(parser_total_and_defaulted "no recognizable patterns\nat all here").1,
   (parser_total_and_defaulted "no recognizable patterns\nat all here").2 (by decide)⟩

/-- C2: for every input, the care-instructions mapping of the parse result
has exactly the four keys Spring, Summer, Monsoon, Winter, in that order -
no key is ever added or removed. -/
theorem care_keys_exact (s : String) (pi : PlantInfo)
    (h : process_gemini_response s = some pi) :
    pi.care_instructions.map Prod.fst = seasonNames := by
  rcases runLines_ok (splitNl s.data) initState rfl
    (fun t ht => Option.noConfusion ht) with ⟨st2, hrun, hkeys, _⟩
  rw [process_gemini_response, parseLines, hrun, Option.map_some'] at h
  have : st2.info = pi := by injection h
  rw [← this]
  exact hkeys

theorem care_keys_exact_witness :
    initPlantInfo.care_instructions.map Prod.fst = seasonNames :=
  care_keys_exact "" initPlantInfo (by decide)

/-- C7: a line matching the Hindi-name patterns (and not the common-name
pattern, which the parser checks first) assigns the trimmed text after the
line's first colon to `localName` exactly when that value is not, up to
case, one of the sentinels unknown / not available / n/a / empty; in
particular `"Hindi Name: n/a"` leaves the default `"Not available"` while
`"Hindi Name: बरगद"` yields `"बरगद"`. -/
theorem hindi_sentinel_filter :
    (∀ (st : ParseState) (l : Chars),
      hindiPhraseAny (pyLower (pyStrip l)) = true →
      "common name:".data.isPrefixOf (pyLower (pyStrip l)) = false →
      ∃ rest, afterFirstColon (pyStrip l) = some rest ∧
        stepLine st l = some (if hindiSentinel (pyStrip rest) = true then st
          else { st with info := { st.info with hindi_name := pyStrip rest } })) ∧
    (process_gemini_response "Hindi Name: n/a").map (fun pi => pi.hindi_name)
      = some "Not available".data ∧
    (process_gemini_response "Hindi Name: बरगद").map (fun pi => pi.hindi_name)
      = some "बरगद".data := by
  refine ⟨?_, by decide, by decide⟩
  intro st l h2 h1
  have hne : (pyStrip l).isEmpty = false := by
    cases hsl : pyStrip l with
    | nil =>
      rw [hsl] at h2
      exact absurd h2 (by decide)
    | cons c t => rfl
  rcases afterFirstColon_isSome (colon_mem_of_hindi h2) with ⟨r, hr⟩
  refine ⟨r, hr, ?_⟩
  simp only [stepLine]
  rw [if_neg (by rw [hne]; exact Bool.false_ne_true),
    if_neg (by rw [h1]; exact Bool.false_ne_true), if_pos h2, hr]
  dsimp only
  by_cases hs : hindiSentinel (pyStrip r) = true
  · rw [if_pos hs, if_pos hs]
  · rw [if_neg hs, if_neg hs]

theorem hindi_sentinel_filter_witness :
    ∃ rest, afterFirstColon (pyStrip "In Hindi: Peepal".data) = some rest ∧
      stepLine initState "In Hindi: Peepal".data
        = some (if hindiSentinel (pyStrip rest) = true then initState
            else { initState with
              info := { initState.info with hindi_name := pyStrip rest } }) :=
  hindi_sentinel_filter.1 initState "In Hindi: Peepal".data (by decide) (by decide)

/-- C10: empty and sentinel values are not suppressed for `commonName`: a
line reading `"Common Name:"` with only whitespace after the colon sets
`commonName` to the empty string, replacing the `"Unknown"` default, and
every common-name line overwrites the field with the trimmed after-colon
text unconditionally, the later line winning verbatim. -/
theorem common_name_overwrite :
    (process_gemini_response "Common Name:   ").map (fun pi => pi.common_name)
      = some [] ∧
    initPlantInfo.common_name = "Unknown".data ∧
    (process_gemini_response "Common Name: Ficus\nCommon Name: Banyan").map
      (fun pi => pi.common_name) = some "Banyan".data ∧
    (∀ (st : ParseState) (l : Chars),
      "common name:".data.isPrefixOf (pyLower (pyStrip l)) = true →
      ∃ rest, afterFirstColon (pyStrip l) = some rest ∧
        stepLine st l = some { st with
          info := { st.info with common_name := pyStrip rest } }) := by
  refine ⟨by decide, rfl, by decide, ?_⟩
  intro st l h1
  have hne : (pyStrip l).isEmpty = false := by
    cases hsl : pyStrip l with
    | nil =>
      rw [hsl] at h1
      exact absurd h1 (by decide)
    | cons c t => rfl
  rcases afterFirstColon_isSome (colon_mem_of_commonPrefix h1) with ⟨r, hr⟩
  refine ⟨r, hr, ?_⟩
  simp only [stepLine]
  rw [if_neg (by rw [hne]; exact Bool.false_ne_true), if_pos h1, hr]

theorem common_name_overwrite_witness :
    ∃ rest, afterFirstColon (pyStrip "COMMON NAME: Rose".data) = some rest ∧
      stepLine initState "COMMON NAME: Rose".data = some { initState with
        info := { initState.info with common_name := pyStrip rest } } :=
  common_name_overwrite.2.2.2 initState "COMMON NAME: Rose".data (by decide)

theorem isPrefixOf_head_false {c d : Char} {ps xs : Chars}
    (hne : (c == d) = false) : (c :: ps).isPrefixOf (d :: xs) = false := by
  rw [List.isPrefixOf_cons₂, hne, Bool.false_and]

theorem seasonHeaderAny_bullet (xs : Chars) :
    seasonHeaderAny seasonNames ('•' :: xs) = false := by
  have h1 : ("Spring".data ++ " Care:".data).isPrefixOf ('•' :: xs) = false := by
    rw [show ("Spring".data ++ " Care:".data : Chars)
        = 'S' :: "pring Care:".data from rfl]
    exact isPrefixOf_head_false (by decide)
  have h2 : ("Summer".data ++ " Care:".data).isPrefixOf ('•' :: xs) = false := by
    rw [show ("Summer".data ++ " Care:".data : Chars)
        = 'S' :: "ummer Care:".data from rfl]
    exact isPrefixOf_head_false (by decide)
  have h3 : ("Monsoon".data ++ " Care:".data).isPrefixOf ('•' :: xs) = false := by
    rw [show ("Monsoon".data ++ " Care:".data : Chars)
        = 'M' :: "onsoon Care:".data from rfl]
    exact isPrefixOf_head_false (by decide)
  have h4 : ("Winter".data ++ " Care:".data).isPrefixOf ('•' :: xs) = false := by
    rw [show ("Winter".data ++ " Care:".data : Chars)
        = 'W' :: "inter Care:".data from rfl]
    exact isPrefixOf_head_false (by decide)
  simp only [seasonHeaderAny, seasonNames, List.any_cons, List.any_nil,
    h1, h2, h3, h4, Bool.or_self, Bool.or_false]

theorem commonPrefix_bullet (xs : Chars) :
    "common name:".data.isPrefixOf ('•' :: xs) = false := by
  rw [show ("common name:".data : Chars) = 'c' :: "ommon name:".data from rfl]
  exact isPrefixOf_head_false (by decide)

theorem stepLine_summer (st : ParseState)
    (hkeys : st.info.care_instructions.map Prod.fst = seasonNames) :
    stepLine st "Summer Care:".data
      = some { st with current_section := some "Summer".data } := by
  simp only [stepLine]
  rw [if_neg (by decide : ¬ ((pyStrip "Summer Care:".data).isEmpty = true)),
    if_neg (by decide :
      ¬ ("common name:".data.isPrefixOf (pyLower (pyStrip "Summer Care:".data)) = true)),
    if_neg (by decide : ¬ (hindiPhraseAny (pyLower (pyStrip "Summer Care:".data)) = true)),
    hkeys,
    if_pos (by decide : seasonHeaderAny seasonNames (pyStrip "Summer Care:".data) = true),
    (by decide : firstToken (pyStrip (beforeFirstColon (pyStrip "Summer Care:".data)))
      = some "Summer".data)]

theorem stepLine_bullet (cn hn : Chars) (sp su mo wi : List Chars) (l : Chars)
    (hb : "•".data.isPrefixOf (pyStrip l) = true)
    (hh : hindiPhraseAny (pyLower (pyStrip l)) = false) :
    stepLine ⟨⟨cn, hn, [("Spring".data, sp), ("Summer".data, su),
        ("Monsoon".data, mo), ("Winter".data, wi)]⟩, some "Summer".data⟩ l
      = some ⟨⟨cn, hn, [("Spring".data, sp), ("Summer".data, su ++ [bulletClean l]),
        ("Monsoon".data, mo), ("Winter".data, wi)]⟩, some "Summer".data⟩ := by
  rcases List.isPrefixOf_iff_prefix.mp hb with ⟨t, ht⟩
  have hcons : pyStrip l = '•' :: t := by rw [← ht]; rfl
  have hlow : pyLower (pyStrip l) = '•' :: pyLower t := by
    rw [hcons, pyLower, List.map_cons, (by decide : Char.toLower '•' = '•')]
    rfl
  have ha : ((pyStrip l).isEmpty) = false := by rw [hcons]; rfl
  have hcm : "common name:".data.isPrefixOf (pyLower (pyStrip l)) = false := by
    rw [hlow]; exact commonPrefix_bullet _
  have hsea : seasonHeaderAny seasonNames (pyStrip l) = false := by
    rw [hcons]; exact seasonHeaderAny_bullet t
  have happ : appendAt "Summer".data (pyStrip (lstripBulletSpace (pyStrip l)))
      [("Spring".data, sp), ("Summer".data, su),
        ("Monsoon".data, mo), ("Winter".data, wi)]
      = some [("Spring".data, sp), ("Summer".data, su ++ [bulletClean l]),
        ("Monsoon".data, mo), ("Winter".data, wi)] := by
    rw [appendAt, if_neg (fun h => absurd (h : "Spring".data = "Summer".data) (by decide)),
      appendAt, if_pos rfl]
    rfl
  simp only [stepLine]
  rw [if_neg (by rw [ha]; exact Bool.false_ne_true),
    if_neg (by rw [hcm]; exact Bool.false_ne_true),
    if_neg (by rw [hh]; exact Bool.false_ne_true),
    if_neg (by
      rw [show List.map Prod.fst [("Spring".data, sp), ("Summer".data, su),
        ("Monsoon".data, mo), ("Winter".data, wi)] = seasonNames from rfl, hsea]
      exact Bool.false_ne_true),
    if_pos (by rw [hb]; rfl)]
  rw [happ]

theorem runLines_bullets (bs : List Chars) (cn hn : Chars)
    (sp su mo wi : List Chars)
    (hb : ∀ l ∈ bs, "•".data.isPrefixOf (pyStrip l) = true)
    (hh : ∀ l ∈ bs, hindiPhraseAny (pyLower (pyStrip l)) = false) :
    runLines ⟨⟨cn, hn, [("Spring".data, sp), ("Summer".data, su),
        ("Monsoon".data, mo), ("Winter".data, wi)]⟩, some "Summer".data⟩ bs
      = some ⟨⟨cn, hn, [("Spring".data, sp),
          ("Summer".data, su ++ bs.map bulletClean),
          ("Monsoon".data, mo), ("Winter".data, wi)]⟩, some "Summer".data⟩ := by
  induction bs generalizing su with
  | nil => simp [runLines]
  | cons l ls ih =>
    rw [runLines, stepLine_bullet cn hn sp su mo wi l
      (hb l (List.mem_cons_self l ls)) (hh l (List.mem_cons_self l ls))]
    dsimp only
    rw [ih (su ++ [bulletClean l]) (fun x hx => hb x (List.mem_cons_of_mem l hx))
      (fun x hx => hh x (List.mem_cons_of_mem l hx))]
    rw [List.map_cons, List.append_assoc]
    rfl

theorem runLines_append (st : ParseState) (a b : List Chars) :
    runLines st (a ++ b) = match runLines st a with
      | none => none
      | some s2 => runLines s2 b := by
  induction a generalizing st with
  | nil => rfl
  | cons l ls ih =>
    rw [List.cons_append, runLines, runLines]
    cases stepLine st l with
    | none => rfl
    | some st2 => exact ih st2

theorem splitNl_append {a : Chars} (b : Chars) (ha : '\n' ∉ a) :
    splitNl (a ++ '\n' :: b) = a :: splitNl b := by
  induction a with
  | nil => rw [List.nil_append, splitNl, if_pos rfl]
  | cons c t ih =>
    have hc : ¬ c = '\n' := fun h => ha (by rw [h]; exact List.mem_cons_self _ _)
    rw [List.cons_append, splitNl, if_neg hc,
      ih (fun hm => ha (List.mem_cons_of_mem c hm))]

theorem splitNl_single {a : Chars} (ha : '\n' ∉ a) : splitNl a = [a] := by
  induction a with
  | nil => rfl
  | cons c t ih =>
    have hc : ¬ c = '\n' := fun h => ha (by rw [h]; exact List.mem_cons_self _ _)
    rw [splitNl, if_neg hc, ih (fun hm => ha (List.mem_cons_of_mem c hm))]

/-- C6: an input made of a `"Summer Care:"` header line followed by exactly
two bullet lines (and nothing else) yields exactly those two bullet texts,
marker and whitespace stripped, in order, under Summer, while Spring,
Monsoon and Winter stay empty.  (The bullet lines must not contain a
Hindi-name phrase, which the parser would recognize first.) -/
theorem summer_two_bullets (l1 l2 : Chars)
    (h1n : '\n' ∉ l1) (h2n : '\n' ∉ l2)
    (hb1 : "•".data.isPrefixOf (pyStrip l1) = true)
    (hh1 : hindiPhraseAny (pyLower (pyStrip l1)) = false)
    (hb2 : "•".data.isPrefixOf (pyStrip l2) = true)
    (hh2 : hindiPhraseAny (pyLower (pyStrip l2)) = false) :
    process_gemini_response
        (String.mk ("Summer Care:".data ++ '\n' :: (l1 ++ '\n' :: l2)))
      = some ⟨"Unknown".data, "Not available".data,
          [("Spring".data, []),
           ("Summer".data, [bulletClean l1, bulletClean l2]),
           ("Monsoon".data, []), ("Winter".data, [])]⟩ := by
  rw [process_gemini_response]
  have hdata : (String.mk ("Summer Care:".data ++ '\n' :: (l1 ++ '\n' :: l2))).data
      = "Summer Care:".data ++ '\n' :: (l1 ++ '\n' :: l2) := rfl
  rw [hdata, splitNl_append _ (by decide), splitNl_append _ h1n, splitNl_single h2n]
  rw [parseLines, runLines, stepLine_summer initState rfl]
  dsimp only
  have hrun := runLines_bullets [l1, l2] "Unknown".data "Not available".data
    [] [] [] []
    (by
      intro x hx
      rcases List.mem_cons.mp hx with rfl | hx2
      · exact hb1
      · rcases List.mem_cons.mp hx2 with rfl | hx3
        · exact hb2
        · cases hx3)
    (by
      intro x hx
      rcases List.mem_cons.mp hx with rfl | hx2
      · exact hh1
      · rcases List.mem_cons.mp hx2 with rfl | hx3
        · exact hh2
        · cases hx3)
  rw [show ({ initState with current_section := some "Summer".data } : ParseState)
      = ⟨⟨"Unknown".data, "Not available".data,
          [("Spring".data, []), ("Summer".data, []),
           ("Monsoon".data, []), ("Winter".data, [])]⟩, some "Summer".data⟩ from rfl]
  rw [hrun]
  rfl

theorem summer_two_bullets_witness :
    process_gemini_response
        (String.mk ("Summer Care:".data ++ '\n' ::
          ("• Water daily".data ++ '\n' :: "• Give shade".data)))
      = some ⟨"Unknown".data, "Not available".data,
          [("Spring".data, []),
           ("Summer".data,
            [bulletClean "• Water daily".data, bulletClean "• Give shade".data]),
           ("Monsoon".data, []), ("Winter".data, [])]⟩ :=
  summer_two_bullets "• Water daily".data "• Give shade".data
    (by decide) (by decide) (by decide) (by decide) (by decide) (by decide)

/-- C9: when the same season header appears twice, the second occurrence
re-points the cursor to that season and later bullets append to the
existing list, so tips from both occurrences accumulate in order, with no
reset and no error. -/
theorem repeated_header_accumulates (bs1 bs2 : List Chars)
    (hb1 : ∀ l ∈ bs1, "•".data.isPrefixOf (pyStrip l) = true)
    (hh1 : ∀ l ∈ bs1, hindiPhraseAny (pyLower (pyStrip l)) = false)
    (hb2 : ∀ l ∈ bs2, "•".data.isPrefixOf (pyStrip l) = true)
    (hh2 : ∀ l ∈ bs2, hindiPhraseAny (pyLower (pyStrip l)) = false) :
    parseLines ("Summer Care:".data :: bs1 ++ "Summer Care:".data :: bs2)
      = some ⟨"Unknown".data, "Not available".data,
          [("Spring".data, []),
           ("Summer".data, bs1.map bulletClean ++ bs2.map bulletClean),
           ("Monsoon".data, []), ("Winter".data, [])]⟩ := by
  rw [parseLines,
    show ("Summer Care:".data :: bs1 ++ "Summer Care:".data :: bs2)
      = "Summer Care:".data :: (bs1 ++ "Summer Care:".data :: bs2) from rfl,
    runLines, stepLine_summer initState rfl]
  dsimp only
  rw [show ({ initState with current_section := some "Summer".data } : ParseState)
      = ⟨⟨"Unknown".data, "Not available".data,
          [("Spring".data, []), ("Summer".data, []),
           ("Monsoon".data, []), ("Winter".data, [])]⟩, some "Summer".data⟩ from rfl]
  rw [runLines_append, runLines_bullets bs1 _ _ _ _ _ _ hb1 hh1]
  dsimp only
  rw [runLines, stepLine_summer
    ⟨⟨"Unknown".data, "Not available".data,
      [("Spring".data, []), ("Summer".data, [] ++ List.map bulletClean bs1),
       ("Monsoon".data, []), ("Winter".data, [])]⟩, some "Summer".data⟩ rfl]
  dsimp only
  rw [runLines_bullets bs2 _ _ _ ([] ++ List.map bulletClean bs1) _ _ hb2 hh2]
  simp

theorem repeated_header_accumulates_witness :
    parseLines ("Summer Care:".data :: ["• One".data]
        ++ "Summer Care:".data :: ["• Two".data])
      = some ⟨"Unknown".data, "Not available".data,
          [("Spring".data, []),
           ("Summer".data, ["• One".data].map bulletClean
              ++ ["• Two".data].map bulletClean),
           ("Monsoon".data, []), ("Winter".data, [])]⟩ :=
  repeated_header_accumulates ["• One".data] ["• Two".data]
    (by decide) (by decide) (by decide) (by decide)

theorem stepLine_noHeader (st : ParseState) (l : Chars)
    (hnh : seasonHeaderAny (st.info.care_instructions.map Prod.fst) (pyStrip l) = false)
    (hsecn : st.current_section = none) :
    ∀ st2, stepLine st l = some st2 →
      st2.current_section = none ∧
      st2.info.care_instructions = st.info.care_instructions := by
  intro st2 h
  simp only [stepLine] at h
  by_cases h0 : (pyStrip l).isEmpty = true
  · rw [if_pos h0] at h
    injection h with h
    rw [← h]; exact ⟨hsecn, rfl⟩
  · rw [if_neg h0] at h
    by_cases h1 : "common name:".data.isPrefixOf (pyLower (pyStrip l)) = true
    · rw [if_pos h1] at h
      cases hafc : afterFirstColon (pyStrip l) with
      | none => rw [hafc] at h; cases h
      | some r =>
        rw [hafc] at h
        dsimp only at h
        injection h with h
        rw [← h]; exact ⟨hsecn, rfl⟩
    · rw [if_neg h1] at h
      by_cases h2 : hindiPhraseAny (pyLower (pyStrip l)) = true
      · rw [if_pos h2] at h
        cases hafc : afterFirstColon (pyStrip l) with
        | none => rw [hafc] at h; cases h
        | some r =>
          rw [hafc] at h
          dsimp only at h
          by_cases hsent : hindiSentinel (pyStrip r) = true
          · rw [if_pos hsent] at h
            injection h with h
            rw [← h]; exact ⟨hsecn, rfl⟩
          · rw [if_neg hsent] at h
            injection h with h
            rw [← h]; exact ⟨hsecn, rfl⟩
      · rw [if_neg h2, if_neg (by rw [hnh]; exact Bool.false_ne_true),
          if_neg (by
            rw [hsecn]
            simp [sectionTruthy])] at h
        injection h with h
        rw [← h]; exact ⟨hsecn, rfl⟩

theorem runLines_noHeaderAux (pre : List Chars)
    (hnh : ∀ l ∈ pre, seasonHeaderAny seasonNames (pyStrip l) = false) :
    ∀ st0 : ParseState, st0.current_section = none →
      st0.info.care_instructions.map Prod.fst = seasonNames →
      ∃ st, runLines st0 pre = some st ∧ st.current_section = none ∧
        st.info.care_instructions = st0.info.care_instructions := by
  induction pre with
  | nil => exact fun st0 hcs _ => ⟨st0, rfl, hcs, rfl⟩
  | cons l ls ih =>
    intro st0 hcs hkeys
    rcases stepLine_ok st0 l hkeys (fun t ht => by rw [hcs] at ht; cases ht)
      with ⟨st1, hst1, hk1, hs1⟩
    have hprops := stepLine_noHeader st0 l
      (by rw [hkeys]; exact hnh l (List.mem_cons_self l ls)) hcs st1 hst1
    rcases ih (fun x hx => hnh x (List.mem_cons_of_mem l hx)) st1 hprops.1 hk1
      with ⟨st, hst, hcs2, hcare2⟩
    refine ⟨st, ?_, hcs2, ?_⟩
    · rw [runLines, hst1]
      exact hst
    · rw [hcare2, hprops.2]

theorem stepLine_names (cn1 hn1 cn2 hn2 : Chars)
    (care : List (Chars × List Chars)) (cs : Option Chars) (l : Chars) :
    (stepLine ⟨⟨cn1, hn1, care⟩, cs⟩ l = none ∧
     stepLine ⟨⟨cn2, hn2, care⟩, cs⟩ l = none) ∨
    (∃ (n1 n2 : Chars × Chars) (cs2 : Option Chars)
        (care2 : List (Chars × List Chars)),
      stepLine ⟨⟨cn1, hn1, care⟩, cs⟩ l = some ⟨⟨n1.1, n1.2, care2⟩, cs2⟩ ∧
      stepLine ⟨⟨cn2, hn2, care⟩, cs⟩ l = some ⟨⟨n2.1, n2.2, care2⟩, cs2⟩) := by
  simp only [stepLine]
  by_cases h0 : (pyStrip l).isEmpty = true
  · simp only [if_pos h0]
    exact Or.inr ⟨(cn1, hn1), (cn2, hn2), cs, care, rfl, rfl⟩
  · simp only [if_neg h0]
    by_cases h1 : "common name:".data.isPrefixOf (pyLower (pyStrip l)) = true
    · simp only [if_pos h1]
      cases hafc : afterFirstColon (pyStrip l) with
      | none => exact Or.inl ⟨rfl, rfl⟩
      | some r =>
        exact Or.inr ⟨(pyStrip r, hn1), (pyStrip r, hn2), cs, care, rfl, rfl⟩
    · simp only [if_neg h1]
      by_cases h2 : hindiPhraseAny (pyLower (pyStrip l)) = true
      · simp only [if_pos h2]
        cases hafc : afterFirstColon (pyStrip l) with
        | none => exact Or.inl ⟨rfl, rfl⟩
        | some r =>
          dsimp only
          by_cases hsent : hindiSentinel (pyStrip r) = true
          · simp only [if_pos hsent]
            exact Or.inr ⟨(cn1, hn1), (cn2, hn2), cs, care, rfl, rfl⟩
          · simp only [if_neg hsent]
            exact Or.inr ⟨(cn1, pyStrip r), (cn2, pyStrip r), cs, care, rfl, rfl⟩
      · simp only [if_neg h2]
        by_cases h3 : seasonHeaderAny (care.map Prod.fst) (pyStrip l) = true
        · simp only [if_pos h3]
          cases hft : firstToken (pyStrip (beforeFirstColon (pyStrip l))) with
          | none => exact Or.inl ⟨rfl, rfl⟩
          | some tok =>
            exact Or.inr ⟨(cn1, hn1), (cn2, hn2), some tok, care, rfl, rfl⟩
        · simp only [if_neg h3]
          by_cases h4 : (sectionTruthy cs && "•".data.isPrefixOf (pyStrip l)) = true
          · simp only [if_pos h4]
            cases cs with
            | none =>
              rw [Bool.and_eq_true] at h4
              cases h4.1
            | some tok =>
              dsimp only
              cases happ : appendAt tok (pyStrip (lstripBulletSpace (pyStrip l)))
                  care with
              | none => exact Or.inl ⟨rfl, rfl⟩
              | some care2 =>
                exact Or.inr ⟨(cn1, hn1), (cn2, hn2), some tok, care2, rfl, rfl⟩
          · simp only [if_neg h4]
            exact Or.inr ⟨(cn1, hn1), (cn2, hn2), cs, care, rfl, rfl⟩

theorem runLines_names (lines : List Chars) :
    ∀ (cn1 hn1 cn2 hn2 : Chars) (care : List (Chars × List Chars))
      (cs : Option Chars),
    (runLines ⟨⟨cn1, hn1, care⟩, cs⟩ lines = none ∧
     runLines ⟨⟨cn2, hn2, care⟩, cs⟩ lines = none) ∨
    (∃ (n1 n2 : Chars × Chars) (cs2 : Option Chars)
        (care2 : List (Chars × List Chars)),
      runLines ⟨⟨cn1, hn1, care⟩, cs⟩ lines = some ⟨⟨n1.1, n1.2, care2⟩, cs2⟩ ∧
      runLines ⟨⟨cn2, hn2, care⟩, cs⟩ lines = some ⟨⟨n2.1, n2.2, care2⟩, cs2⟩) := by
  induction lines with
  | nil =>
    intro cn1 hn1 cn2 hn2 care cs
    exact Or.inr ⟨(cn1, hn1), (cn2, hn2), cs, care, rfl, rfl⟩
  | cons l ls ih =>
    intro cn1 hn1 cn2 hn2 care cs
    rcases stepLine_names cn1 hn1 cn2 hn2 care cs l with ⟨hs1, hs2⟩ |
      ⟨m1, m2, cs2, care2, hs1, hs2⟩
    · left
      constructor <;> rw [runLines]
      · rw [hs1]
      · rw [hs2]
    · rcases ih m1.1 m1.2 m2.1 m2.2 care2 cs2 with ⟨hr1, hr2⟩ |
        ⟨k1, k2, cs3, care3, hr1, hr2⟩
      · left
        constructor <;> rw [runLines]
        · rw [hs1]; exact hr1
        · rw [hs2]; exact hr2
      · right
        refine ⟨k1, k2, cs3, care3, ?_, ?_⟩ <;> rw [runLines]
        · rw [hs1]; exact hr1
        · rw [hs2]; exact hr2

/-- C8: bullet lines occurring before any recognized season header are
dropped: the care instructions of the full parse agree with those of the
parse that never saw the pre-header lines, so those bullets contribute to
no season tip list. -/
theorem pre_header_bullets_dropped (pre rest : List Chars)
    (hnh : ∀ l ∈ pre, seasonHeaderAny seasonNames (pyStrip l) = false) :
    ∃ pi1 pi2, parseLines (pre ++ rest) = some pi1 ∧ parseLines rest = some pi2 ∧
      pi1.care_instructions = pi2.care_instructions := by
  rcases runLines_noHeaderAux pre hnh initState rfl rfl
    with ⟨stp, hpre, hcs, hcare⟩
  rcases stp with ⟨⟨cnp, hnp, carep⟩, csp⟩
  dsimp only at hcs hcare
  subst hcs
  subst hcare
  have hpre2 : runLines initState pre
      = some ⟨⟨cnp, hnp, initPlantInfo.care_instructions⟩, none⟩ := hpre
  have hnames := runLines_names rest cnp hnp "Unknown".data "Not available".data
    initPlantInfo.care_instructions none
  rcases hnames with ⟨hn1, hn2⟩ | ⟨n1, n2, cs2, care2, h1, h2⟩
  · rcases runLines_ok rest initState rfl (fun t ht => Option.noConfusion ht)
      with ⟨st2, hst2, _, _⟩
    rw [show runLines initState rest
        = runLines ⟨⟨"Unknown".data, "Not available".data,
            initPlantInfo.care_instructions⟩, none⟩ rest from rfl, hn2] at hst2
    cases hst2
  · refine ⟨⟨n1.1, n1.2, care2⟩, ⟨n2.1, n2.2, care2⟩, ?_, ?_, rfl⟩
    · rw [parseLines, runLines_append, hpre2]
      dsimp only
      rw [h1]
      rfl
    · rw [parseLines, show runLines initState rest
        = runLines ⟨⟨"Unknown".data, "Not available".data,
            initPlantInfo.care_instructions⟩, none⟩ rest from rfl, h2]
      rfl

theorem pre_header_bullets_dropped_witness :
    ∃ pi1 pi2,
      parseLines (["• early orphan tip".data]
        ++ ["Summer Care:".data, "• real tip".data]) = some pi1 ∧
      parseLines ["Summer Care:".data, "• real tip".data] = some pi2 ∧
      pi1.care_instructions = pi2.care_instructions :=
  pre_header_bullets_dropped ["• early orphan tip".data]
    ["Summer Care:".data, "• real tip".data] (by decide)
